import Mathlib

/-!
Verification of the niche-identification core of `market_research.py`.

The development shallowly embeds the `MarketResearch` class: its numeric
values are modelled as exact rationals (`ℚ`), Python lists as `List`,
Python `None` as `Option.none`, and the three externally supplied,
fallible collaborators (data collector, trend analyzer, competitor
analyzer) as `Except`-valued functions supplied as parameters.  A Python
`try/except` block is modelled by matching on the `Except` result.
-/

/-- A trend record as consumed by `MarketResearch._rank_trends`:
`{name, strength, growth_rate}`. -/
structure Trend where
  name : String
  strength : ℚ
  growth_rate : ℚ
deriving DecidableEq

/-- The target-audience descriptor returned by
`MarketResearch._determine_target_audience`. -/
structure Audience where
  role : List String
  industry : List String
  company_size : List String
deriving DecidableEq

/-- The niche report dictionary built inside `MarketResearch.identify_niche`.
The competitor records are opaque to the core, so their type is a parameter. -/
structure Report (α : Type) where
  niche : String
  potential_score : ℚ
  target_audience : Audience
  competitors : List α
deriving DecidableEq

/-- Lexicographic comparison of strings by code point, as Python compares
`str` values, expressed on the underlying character lists so that it is
structurally recursive. -/
def charListLe : List Char → List Char → Bool
  | [], _ => true
  | _ :: _, [] => false
  | a :: as, b :: bs => if a < b then true else if b < a then false else charListLe as bs

/-- The score assigned to one trend by `MarketResearch._rank_trends`:
`trend['growth_rate'] * (1 if trend['strength'] > 0.7 else 0)`. -/
def trendScore (t : Trend) : ℚ :=
  t.growth_rate * (if t.strength > 0.7 then 1 else 0)

/-- The sort ordering used by `MarketResearch._rank_trends` on its
`(name, score)` pairs: Python's `key=lambda x: (-x[1], x[0])`, i.e. score
descending and then name ascending. -/
def trendKeyLe (a b : String × ℚ) : Prop :=
  b.2 < a.2 ∨ (a.2 = b.2 ∧ charListLe a.1.data b.1.data = true)

instance : DecidableRel trendKeyLe := fun a b =>
  inferInstanceAs (Decidable (b.2 < a.2 ∨ (a.2 = b.2 ∧ charListLe a.1.data b.1.data = true)))

/-- `MarketResearch._rank_trends`: score every trend, sort the
`(name, score)` pairs by descending score with ties broken by ascending
name, and return the names.  The sort key contains the name, so the key
order is antisymmetric and the sorted list is unique; `insertionSort`
therefore computes exactly what Python's stable `list.sort` computes. -/
def rank_trends (trends : List Trend) : List String :=
  let scored_trends := trends.map (fun t => (t.name, trendScore t))
  ((scored_trends.insertionSort trendKeyLe).map (fun t => t.1))

/-- `MarketResearch._estimate_market_size`: static market-size table
(in millions), keyed by the exact niche string. -/
def estimate_market_size (niche : String) : ℕ :=
  if niche = "project_management" then 150
  else if niche = "workflow Automation" then 200
  else 50

/-- `MarketResearch._calculate_potential`: `1.0` on an empty competitor
list, otherwise `(market_size / 100) * (1 / (competitor_count + 1))`. -/
def calculate_potential {α : Type} (niche : String) (competitors : List α) : ℚ :=
  if competitors.isEmpty then 1
  else
    let competitor_count : ℚ := competitors.length
    let market_size : ℚ := estimate_market_size niche
    (market_size / 100) * (1 / (competitor_count + 1))

/-- `MarketResearch._calculate_potential` with the market-size table
abstracted into a parameter, used to state that the empty-competitor
branch does not consult the table. -/
def calculate_potential_with {α : Type} (est : String → ℕ) (niche : String)
    (competitors : List α) : ℚ :=
  if competitors.isEmpty then 1
  else
    let competitor_count : ℚ := competitors.length
    let market_size : ℚ := est niche
    (market_size / 100) * (1 / (competitor_count + 1))

/-- `MarketResearch._determine_target_audience`: static three-case lookup. -/
def determine_target_audience (niche : String) : Audience :=
  if niche = "project_management" then
    { role := ["Project Managers", "Developers"]
      industry := ["Tech", "Consulting", "Construction"]
      company_size := ["Small", "Medium"] }
  else if niche = "workflow Automation" then
    { role := ["IT Professionals", "Operations Managers"]
      industry := ["Tech", "Manufacturing", "Finance"]
      company_size := ["Medium", "Large"] }
  else
    { role := [], industry := [], company_size := [] }

/-- Four trends, all above the 0.7 strength gate, with growth rates 4 > 3 >
2 > 1, so that the ranker orders them "n1", "n2", "n3", "n4". -/
def fourTrends : List Trend :=
  [{ name := "n1", strength := 9/10, growth_rate := 4 },
   { name := "n2", strength := 9/10, growth_rate := 3 },
   { name := "n3", strength := 9/10, growth_rate := 2 },
   { name := "n4", strength := 9/10, growth_rate := 1 }]

/-- A competitor analyzer that raises for every niche except "n4", for which
it succeeds with one competitor. -/
def failTop3Analyzer : String → Except Unit (List Unit) :=
  fun niche => if niche = "n4" then Except.ok [()] else Except.error ()

/-- A single trend record "x" above the strength gate. -/
def oneTrend : List Trend :=
  [{ name := "x", strength := 4/5, growth_rate := 10 }]

/-- A competitor analyzer that succeeds with an empty competitor list for
every niche. -/
def emptyCompAnalyzer : String → Except Unit (List Unit) :=
  fun _ => Except.ok []

theorem charListLe_total (s t : List Char) :
    charListLe s t = true ∨ charListLe t s = true := by
  induction s generalizing t with
  | nil => left; rfl
  | cons a as ih =>
    cases t with
    | nil => right; rfl
    | cons b bs =>
      rcases lt_trichotomy a b with h | h | h
      · left; simp [charListLe, h]
      · subst h
        rcases ih bs with h2 | h2
        · left; simp [charListLe, h2]
        · right; simp [charListLe, h2]
      · right; simp [charListLe, h]

theorem charListLe_trans {s t u : List Char} (h1 : charListLe s t = true)
    (h2 : charListLe t u = true) : charListLe s u = true := by
  induction s generalizing t u with
  | nil => rfl
  | cons a as ih =>
    cases t with
    | nil => simp [charListLe] at h1
    | cons b bs =>
      cases u with
      | nil => simp [charListLe] at h2
      | cons c cs =>
        rcases lt_trichotomy a b with hab | hab | hab
        · rcases lt_trichotomy b c with hbc | hbc | hbc
          · simp [charListLe, hab.trans hbc]
          · subst hbc; simp [charListLe, hab]
          · simp [charListLe, (lt_asymm hbc : ¬ b < c), hbc] at h2
        · subst hab
          rcases lt_trichotomy a c with hac | hac | hac
          · simp [charListLe, hac]
          · subst hac
            simp only [charListLe, lt_irrefl, if_false] at h1 h2 ⊢
            exact ih h1 h2
          · simp [charListLe, (lt_asymm hac : ¬ a < c), hac] at h2
        · simp [charListLe, (lt_asymm hab : ¬ a < b), hab] at h1

theorem charListLe_antisymm {s t : List Char} (h1 : charListLe s t = true)
    (h2 : charListLe t s = true) : s = t := by
  induction s generalizing t with
  | nil =>
    cases t with
    | nil => rfl
    | cons b bs => simp [charListLe] at h2
  | cons a as ih =>
    cases t with
    | nil => simp [charListLe] at h1
    | cons b bs =>
      rcases lt_trichotomy a b with hab | hab | hab
      · simp [charListLe, (lt_asymm hab : ¬ b < a), hab] at h2
      · subst hab
        simp only [charListLe, lt_irrefl, if_false] at h1 h2
        rw [ih h1 h2]
      · simp [charListLe, (lt_asymm hab : ¬ a < b), hab] at h1

instance trendKeyLe_isTotal : IsTotal (String × ℚ) trendKeyLe where
  total a b := by
    unfold trendKeyLe
    rcases lt_trichotomy a.2 b.2 with h | h | h
    · exact Or.inr (Or.inl h)
    · rcases charListLe_total a.1.data b.1.data with h2 | h2
      · exact Or.inl (Or.inr ⟨h, h2⟩)
      · exact Or.inr (Or.inr ⟨h.symm, h2⟩)
    · exact Or.inl (Or.inl h)

instance trendKeyLe_isTrans : IsTrans (String × ℚ) trendKeyLe where
  trans a b c hab hbc := by
    unfold trendKeyLe at *
    rcases hab with h1 | ⟨h1, h1n⟩ <;> rcases hbc with h2 | ⟨h2, h2n⟩
    · exact Or.inl (h2.trans h1)
    · exact Or.inl (h2 ▸ h1)
    · exact Or.inl (h1 ▸ h2)
    · exact Or.inr ⟨h1.trans h2, charListLe_trans h1n h2n⟩

theorem trendKeyLe_antisymm {a b : String × ℚ} (h1 : trendKeyLe a b)
    (h2 : trendKeyLe b a) : a = b := by
  unfold trendKeyLe at h1 h2
  rcases h1 with h1 | ⟨h1, h1n⟩
  · rcases h2 with h2 | ⟨h2, _⟩
    · exact absurd h2 (lt_asymm h1)
    · exact absurd h1 (h2 ▸ lt_irrefl a.2)
  · rcases h2 with h2 | ⟨h2, h2n⟩
    · exact absurd h2 (h1 ▸ lt_irrefl b.2)
    · have hs : a.1.data = b.1.data := charListLe_antisymm h1n h2n
      exact Prod.ext (String.ext hs) h1

/-- One iteration of the candidate loop in `MarketResearch.identify_niche`:
the body of the `try` block, which invokes the competitor analyzer,
computes the potential score, determines the target audience and builds
the report.  Because in Python any of these calls may raise, the score
and audience computations are taken as `Except`-valued parameters here;
`identify_niche` instantiates them with the (total) functions of the
class, lifted into `Except.ok`. -/
def candidateStep {ε α : Type} (competitor_analyzer : String → Except ε (List α))
    (calcP : String → List α → Except ε ℚ) (audienceOf : String → Except ε Audience)
    (niche : String) : Except ε (Report α) :=
  match competitor_analyzer niche with
  | .error e => .error e
  | .ok competitors =>
    match calcP niche competitors with
    | .error e => .error e
    | .ok potential_score =>
      match audienceOf niche with
      | .error e => .error e
      | .ok target_audience =>
        .ok { niche := niche, potential_score := potential_score,
              target_audience := target_audience, competitors := competitors }

/-- The candidate loop of `MarketResearch.identify_niche`: for each niche in
order, run `candidateStep`; append its report to the accumulated `results`
on success, and on an exception skip the candidate and continue. -/
def processCandidates {ε α : Type} (competitor_analyzer : String → Except ε (List α))
    (calcP : String → List α → Except ε ℚ) (audienceOf : String → Except ε Audience) :
    List String → List (Report α) → List (Report α)
  | [], results => results
  | niche :: rest, results =>
    match candidateStep competitor_analyzer calcP audienceOf niche with
    | .ok r => processCandidates competitor_analyzer calcP audienceOf rest (results ++ [r])
    | .error _ => processCandidates competitor_analyzer calcP audienceOf rest results

/-- `MarketResearch.identify_niche`: collect data, analyze trends, rank them,
analyze competition for the first three ranked niches, and return the first
accumulated report (`results[0] if results else None`).  A failing collector
or trend analyzer short-circuits to `none`. -/
def identify_niche {ε δ α : Type} (data_collector : Except ε δ)
    (trend_analyzer : δ → Except ε (List Trend))
    (competitor_analyzer : String → Except ε (List α)) : Option (Report α) :=
  match data_collector with
  | .error _ => none
  | .ok data =>
    match trend_analyzer data with
    | .error _ => none
    | .ok trends =>
      let ranked_niches := rank_trends trends
      let results := processCandidates competitor_analyzer
        (fun n cs => .ok (calculate_potential n cs))
        (fun n => .ok (determine_target_audience n))
        (ranked_niches.take 3) []
      results.head?

/-- A call to one of the three external collaborators of `MarketResearch`. -/
inductive ExtCall
  | collect
  | trendAnalyze
  | compAnalyze (niche : String)
deriving DecidableEq

/-- The sequence of external-collaborator calls `MarketResearch.identify_niche`
performs, read off its control flow: one `collect_data` call; if it succeeds,
one `trend_analyzer.analyze` call; if that succeeds, one
`competitor_analyzer.analyze` call per candidate in the top-3 loop
(each loop iteration invokes the analyzer exactly once, whatever its
outcome). -/
def identify_niche_calls {ε δ α : Type} (data_collector : Except ε δ)
    (trend_analyzer : δ → Except ε (List Trend))
    (competitor_analyzer : String → Except ε (List α)) : List ExtCall :=
  match data_collector with
  | .error _ => [ExtCall.collect]
  | .ok data =>
    match trend_analyzer data with
    | .error _ => [ExtCall.collect, ExtCall.trendAnalyze]
    | .ok trends =>
      have _ := competitor_analyzer
      ExtCall.collect :: ExtCall.trendAnalyze ::
        ((rank_trends trends).take 3).map ExtCall.compAnalyze

/-- Modelled from the spec: return the report of the highest-ranked candidate
for which the per-candidate analysis succeeds, or `none` when it fails for
every candidate (spec section 4.4, steps 4 and 5). -/
def firstSuccessReport {ε α : Type} (competitor_analyzer : String → Except ε (List α))
    (calcP : String → List α → Except ε ℚ) (audienceOf : String → Except ε Audience) :
    List String → Option (Report α)
  | [] => none
  | niche :: rest =>
    match candidateStep competitor_analyzer calcP audienceOf niche with
    | .ok r => some r
    | .error _ => firstSuccessReport competitor_analyzer calcP audienceOf rest

theorem processCandidates_acc {ε α : Type} (ca : String → Except ε (List α))
    (calcP : String → List α → Except ε ℚ) (audienceOf : String → Except ε Audience)
    (l : List String) (acc : List (Report α)) :
    processCandidates ca calcP audienceOf l acc
      = acc ++ processCandidates ca calcP audienceOf l [] := by
  induction l generalizing acc with
  | nil => simp [processCandidates]
  | cons n rest ih =>
    rcases hc : candidateStep ca calcP audienceOf n with e | r
    · simp only [processCandidates, hc]
      exact ih acc
    · simp only [processCandidates, hc, List.nil_append]
      rw [ih (acc ++ [r]), ih [r]]
      simp

theorem head?_processCandidates {ε α : Type} (ca : String → Except ε (List α))
    (calcP : String → List α → Except ε ℚ) (audienceOf : String → Except ε Audience)
    (l : List String) :
    (processCandidates ca calcP audienceOf l []).head?
      = firstSuccessReport ca calcP audienceOf l := by
  induction l with
  | nil => rfl
  | cons n rest ih =>
    rcases hc : candidateStep ca calcP audienceOf n with e | r
    · simp only [processCandidates, firstSuccessReport, hc]
      exact ih
    · simp only [processCandidates, firstSuccessReport, hc]
      rw [processCandidates_acc]
      simp

theorem calculate_potential_bounds {α : Type} (niche : String) (competitors : List α) :
    0 ≤ calculate_potential niche competitors ∧ calculate_potential niche competitors ≤ 1 := by
  unfold calculate_potential
  rcases competitors with _ | ⟨c, cs⟩
  · norm_num
  · simp only [List.isEmpty_cons, Bool.false_eq_true, if_false, List.length_cons]
    have hm0 : (0 : ℚ) ≤ (estimate_market_size niche : ℚ) := by positivity
    have hm2 : ((estimate_market_size niche : ℚ)) ≤ 200 := by
      unfold estimate_market_size
      split
      · norm_num
      · split <;> norm_num
    have hn1 : (1 : ℚ) ≤ ((cs.length + 1 : ℕ) : ℚ) := by
      exact_mod_cast Nat.succ_le_succ (Nat.zero_le cs.length)
    constructor
    · positivity
    · rw [div_mul_div_comm, div_le_one (by positivity)]
      push_cast
      nlinarith

theorem candidateStep_pure_ok {ε α : Type} (ca : String → Except ε (List α)) (n : String)
    (r : Report α)
    (h : candidateStep ca (fun n cs => .ok (calculate_potential n cs))
        (fun n => .ok (determine_target_audience n)) n = .ok r) :
    r.niche = n ∧ r.potential_score = calculate_potential n r.competitors ∧
      r.target_audience = determine_target_audience n := by
  unfold candidateStep at h
  rcases hca : ca n with e | cs
  · rw [hca] at h; cases h
  · rw [hca] at h
    simp only at h
    cases h
    simp

theorem mem_processCandidates {ε α : Type} (ca : String → Except ε (List α))
    (calcP : String → List α → Except ε ℚ) (audienceOf : String → Except ε Audience)
    (l : List String) (acc : List (Report α)) (r : Report α)
    (h : r ∈ processCandidates ca calcP audienceOf l acc) :
    r ∈ acc ∨ ∃ n, candidateStep ca calcP audienceOf n = .ok r := by
  induction l generalizing acc with
  | nil => exact Or.inl h
  | cons n rest ih =>
    rcases hc : candidateStep ca calcP audienceOf n with e | r2
    · simp only [processCandidates, hc] at h
      exact ih acc h
    · simp only [processCandidates, hc] at h
      rcases ih _ h with h2 | h2
      · rcases List.mem_append.mp h2 with h3 | h3
        · exact Or.inl h3
        · have hr : r = r2 := by simpa using h3
          exact Or.inr ⟨n, hr ▸ hc⟩
      · exact Or.inr h2

theorem identify_niche_ok_ok {ε δ α : Type} (data : δ)
    (ta : δ → Except ε (List Trend)) (ca : String → Except ε (List α))
    (trends : List Trend) (hta : ta data = .ok trends) :
    identify_niche (Except.ok data) ta ca
      = (processCandidates ca (fun n cs => .ok (calculate_potential n cs))
          (fun n => .ok (determine_target_audience n))
          ((rank_trends trends).take 3) []).head? := by
  simp only [identify_niche, hta]

theorem rank_fourTrends : rank_trends fourTrends = ["n1", "n2", "n3", "n4"] := by
  norm_num [fourTrends, rank_trends, trendScore, trendKeyLe, charListLe]

theorem identify_fourTrends_none :
    identify_niche (Except.ok ()) (fun _ => Except.ok fourTrends) failTop3Analyzer = none := by
  rw [identify_niche_ok_ok () (fun _ => Except.ok fourTrends) failTop3Analyzer fourTrends rfl,
    rank_fourTrends]
  norm_num [processCandidates, candidateStep, failTop3Analyzer]
  decide

theorem rank_oneTrend : rank_trends oneTrend = ["x"] := by
  norm_num [oneTrend, rank_trends, trendScore, trendKeyLe, charListLe]

theorem identify_oneTrend_eval :
    identify_niche (Except.ok ()) (fun _ => Except.ok oneTrend) emptyCompAnalyzer
      = some { niche := "x", potential_score := 1,
               target_audience := { role := [], industry := [], company_size := [] },
               competitors := [] } := by
  rw [identify_niche_ok_ok () (fun _ => Except.ok oneTrend) emptyCompAnalyzer oneTrend rfl,
    rank_oneTrend]
  norm_num [processCandidates, candidateStep, emptyCompAnalyzer, calculate_potential,
    determine_target_audience]
  decide

/-- C1: for every niche string and every competitor list, the potential
score computed by `calculate_potential` lies in the closed interval [0, 1];
consequently the `potential_score` field of any report returned by
`identify_niche` lies in [0, 1]. -/
theorem potential_score_in_unit_interval :
    (∀ (α : Type) (niche : String) (competitors : List α),
      0 ≤ calculate_potential niche competitors ∧
        calculate_potential niche competitors ≤ 1) ∧
    (∀ (ε δ α : Type) (data_collector : Except ε δ)
      (trend_analyzer : δ → Except ε (List Trend))
      (competitor_analyzer : String → Except ε (List α)) (r : Report α),
      identify_niche data_collector trend_analyzer competitor_analyzer = some r →
      0 ≤ r.potential_score ∧ r.potential_score ≤ 1) := by
  refine ⟨fun α niche competitors => calculate_potential_bounds niche competitors, ?_⟩
  intro ε δ α dc ta ca r h
  rcases dc with e | data
  · simp [identify_niche] at h
  · rcases hta : ta data with e | trends
    · simp [identify_niche, hta] at h
    · rw [identify_niche_ok_ok data ta ca trends hta] at h
      have hmem : r ∈ processCandidates ca (fun n cs => .ok (calculate_potential n cs))
          (fun n => .ok (determine_target_audience n)) ((rank_trends trends).take 3) [] := by
        rcases hl : processCandidates ca (fun n cs => .ok (calculate_potential n cs))
            (fun n => .ok (determine_target_audience n)) ((rank_trends trends).take 3) []
            with _ | ⟨x, xs⟩
        · rw [hl] at h; cases h
        · rw [hl] at h
          simp only [List.head?_cons, Option.some.injEq] at h
          rw [← h]
          exact List.mem_cons_self x xs
      rcases mem_processCandidates ca _ _ _ _ r hmem with h2 | ⟨n, h2⟩
      · cases h2
      · rcases candidateStep_pure_ok ca n r h2 with ⟨_, hscore, _⟩
        rw [hscore]
        exact calculate_potential_bounds n r.competitors

/-- Witness for C1 at the end-to-end example: a collector that succeeds, a
trend analyzer returning the single trend "x" and a competitor analyzer
returning no competitors, for which `identify_niche` returns the report for
"x" with potential score 1. -/
theorem potential_score_in_unit_interval_witness :
    0 ≤ (Report.mk "x" 1 (Audience.mk [] [] []) ([] : List Unit)).potential_score ∧
      (Report.mk "x" 1 (Audience.mk [] [] []) ([] : List Unit)).potential_score ≤ 1 :=
  potential_score_in_unit_interval.2 Unit Unit Unit (Except.ok ())
    (fun _ => Except.ok oneTrend) emptyCompAnalyzer
    (Report.mk "x" 1 (Audience.mk [] [] []) []) identify_oneTrend_eval

/-- C2: whenever data collection and trend analysis succeed, `identify_niche`
returns exactly the first success among the top-3 ranked candidates, as
computed by the spec-side `firstSuccessReport`; and in the concrete scenario
`fourTrends`/`failTop3Analyzer`, where the competitor analyzer fails on the
three top-ranked candidates and would succeed on the fourth, it returns the
"none" sentinel. -/
theorem identify_niche_top3_first_success :
    (∀ (ε δ α : Type) (data : δ) (trend_analyzer : δ → Except ε (List Trend))
      (competitor_analyzer : String → Except ε (List α)) (trends : List Trend),
      trend_analyzer data = Except.ok trends →
      identify_niche (Except.ok data) trend_analyzer competitor_analyzer
        = firstSuccessReport competitor_analyzer
            (fun n cs => Except.ok (calculate_potential n cs))
            (fun n => Except.ok (determine_target_audience n))
            ((rank_trends trends).take 3)) ∧
    (identify_niche (Except.ok ()) (fun _ => Except.ok fourTrends) failTop3Analyzer = none ∧
      failTop3Analyzer "n4" = Except.ok [()]) := by
  refine ⟨?_, identify_fourTrends_none, by simp [failTop3Analyzer]⟩
  intro ε δ α data ta ca trends hta
  rw [identify_niche_ok_ok data ta ca trends hta, head?_processCandidates]

/-- Witness for C2: the characterization applied to the concrete
`fourTrends` scenario, with the trend-analysis hypothesis discharged by
`rfl`. -/
theorem identify_niche_top3_first_success_witness :
    identify_niche (Except.ok ()) (fun _ => Except.ok fourTrends) failTop3Analyzer
      = firstSuccessReport failTop3Analyzer
          (fun n cs => Except.ok (calculate_potential n cs))
          (fun n => Except.ok (determine_target_audience n))
          ((rank_trends fourTrends).take 3) :=
  identify_niche_top3_first_success.1 Unit Unit Unit ()
    (fun _ => Except.ok fourTrends) failTop3Analyzer fourTrends rfl

/-- C3: on a non-empty competitor list the scorer returns
`(market_size / 100) * (1 / (count + 1))` with the market size read off the
static table (150 for "project_management", 200 for "workflow Automation",
50 otherwise); in particular 0.75 for "project_management" with one
competitor and 0.1 for "unknown_niche" with four competitors. -/
theorem calculate_potential_nonempty_formula :
    (∀ (α : Type) (niche : String) (competitors : List α), competitors ≠ [] →
      calculate_potential niche competitors =
        ((if niche = "project_management" then (150 : ℚ)
          else if niche = "workflow Automation" then 200 else 50) / 100)
          * (1 / ((competitors.length : ℚ) + 1))) ∧
    calculate_potential "project_management" [()] = 0.75 ∧
    calculate_potential "unknown_niche" [(), (), (), ()] = 0.1 := by
  refine ⟨?_, ?_, ?_⟩
  · intro α niche competitors hne
    rcases competitors with _ | ⟨c, cs⟩
    · exact absurd rfl hne
    · simp only [calculate_potential, estimate_market_size, List.isEmpty_cons,
        Bool.false_eq_true, if_false, List.length_cons]
      split_ifs <;> norm_num
  · simp [calculate_potential, estimate_market_size]
    norm_num
  · simp [calculate_potential, estimate_market_size]
    norm_num

/-- Witness for C3 at the one-competitor "project_management" input. -/
theorem calculate_potential_nonempty_formula_witness :
    calculate_potential "project_management" [()] =
      ((if "project_management" = "project_management" then (150 : ℚ)
        else if "project_management" = "workflow Automation" then 200 else 50) / 100)
        * (1 / ((([()] : List Unit).length : ℚ) + 1)) :=
  calculate_potential_nonempty_formula.1 Unit "project_management" [()] (by decide)

/-- C4: the ranker scores each trend as `growth_rate * (1 if strength > 0.7
else 0)` — so a trend with strength at or below 0.7 scores exactly 0 — and
returns the names of the scored pairs arranged in the `trendKeyLe` order
(descending score, ties broken by ascending name); on the two equal-score
trends "b" and "a" it returns ["a", "b"]. -/
theorem rank_trends_gating_and_sorted :
    (∀ t : Trend, t.strength ≤ 0.7 → trendScore t = 0) ∧
    (∀ trends : List Trend,
      rank_trends trends
          = ((trends.map (fun t => (t.name, trendScore t))).insertionSort trendKeyLe).map
              (fun p => p.1) ∧
      List.Sorted trendKeyLe
        ((trends.map (fun t => (t.name, trendScore t))).insertionSort trendKeyLe)) ∧
    rank_trends [{ name := "b", strength := 0.9, growth_rate := 5 },
                 { name := "a", strength := 0.9, growth_rate := 5 }] = ["a", "b"] := by
  refine ⟨?_, ?_, ?_⟩
  · intro t h
    simp [trendScore, if_neg (not_lt.mpr h)]
  · intro trends
    exact ⟨rfl, List.sorted_insertionSort trendKeyLe _⟩
  · norm_num [rank_trends, trendScore, trendKeyLe, charListLe]
    decide

/-- Witness for C4: the gating clause applied to a trend whose strength is
exactly 0.7, whose score is therefore 0 despite a large growth rate. -/
theorem rank_trends_gating_and_sorted_witness :
    trendScore { name := "gated", strength := 0.7, growth_rate := 1000 } = 0 :=
  rank_trends_gating_and_sorted.1
    { name := "gated", strength := 0.7, growth_rate := 1000 } (le_refl (0.7 : ℚ))

/-- C5: the ranker's output has the same length as its input and is a
permutation of the input's name fields; the empty input yields the empty
output. -/
theorem rank_trends_length_and_perm :
    (∀ trends : List Trend, (rank_trends trends).length = trends.length) ∧
    (∀ trends : List Trend,
      (rank_trends trends).Perm (trends.map (fun t => t.name))) ∧
    rank_trends [] = [] := by
  have hperm : ∀ trends : List Trend,
      (rank_trends trends).Perm (trends.map (fun t => t.name)) := by
    intro trends
    unfold rank_trends
    have h1 := (List.perm_insertionSort trendKeyLe
      (trends.map (fun t => (t.name, trendScore t)))).map (fun p : String × ℚ => p.1)
    simpa [List.map_map, Function.comp] using h1
  refine ⟨?_, hperm, rfl⟩
  intro trends
  rw [(hperm trends).length_eq, List.length_map]

/-- C6: for every niche the scorer returns exactly 1.0 on an empty
competitor list; moreover the same holds for the scorer with the
market-size table replaced by an arbitrary one (`calculate_potential_with`),
of which `calculate_potential` is the instance at `estimate_market_size`,
so the empty-competitor branch does not consult the table. -/
theorem calculate_potential_empty_one :
    (∀ (α : Type) (niche : String), calculate_potential niche ([] : List α) = 1) ∧
    (∀ (α : Type) (niche : String) (competitors : List α),
      calculate_potential niche competitors
        = calculate_potential_with estimate_market_size niche competitors) ∧
    (∀ (α : Type) (est : String → ℕ) (niche : String),
      calculate_potential_with est niche ([] : List α) = 1) :=
  ⟨fun _ _ => rfl, fun _ _ _ => rfl, fun _ _ _ => rfl⟩

/-- C7: a failing data collector makes `identify_niche` return the "none"
sentinel with the collector as the only external call (so the trend and
competitor analyzers are never invoked and nothing is retried); a failing
trend analyzer makes it return the sentinel with exactly one collector call
followed by one trend-analysis call (so the competitor analyzer is never
invoked and nothing is retried). -/
theorem identify_niche_fatal_shortcircuit :
    (∀ (ε δ α : Type) (e : ε) (trend_analyzer : δ → Except ε (List Trend))
      (competitor_analyzer : String → Except ε (List α)),
      identify_niche (Except.error e) trend_analyzer competitor_analyzer = none ∧
      identify_niche_calls (Except.error e) trend_analyzer competitor_analyzer
        = [ExtCall.collect]) ∧
    (∀ (ε δ α : Type) (data : δ) (e : ε) (trend_analyzer : δ → Except ε (List Trend))
      (competitor_analyzer : String → Except ε (List α)),
      trend_analyzer data = Except.error e →
      identify_niche (Except.ok data) trend_analyzer competitor_analyzer = none ∧
      identify_niche_calls (Except.ok data) trend_analyzer competitor_analyzer
        = [ExtCall.collect, ExtCall.trendAnalyze]) := by
  constructor
  · intro ε δ α e ta ca
    exact ⟨rfl, rfl⟩
  · intro ε δ α data e ta ca hta
    constructor
    · simp [identify_niche, hta]
    · simp [identify_niche_calls, hta]

/-- Witness for C7: a collector failure and a trend-analysis failure, both
at concrete collaborators over `Unit`. -/
theorem identify_niche_fatal_shortcircuit_witness :
    (identify_niche (Except.error ()) (fun _ : Unit => Except.ok ([] : List Trend))
        emptyCompAnalyzer = none ∧
      identify_niche_calls (Except.error ()) (fun _ : Unit => Except.ok ([] : List Trend))
        emptyCompAnalyzer = [ExtCall.collect]) ∧
    (identify_niche (Except.ok ()) (fun _ : Unit => Except.error ()) emptyCompAnalyzer
        = none ∧
      identify_niche_calls (Except.ok ()) (fun _ : Unit => Except.error ()) emptyCompAnalyzer
        = [ExtCall.collect, ExtCall.trendAnalyze]) :=
  ⟨identify_niche_fatal_shortcircuit.1 Unit Unit Unit ()
      (fun _ => Except.ok []) emptyCompAnalyzer,
    identify_niche_fatal_shortcircuit.2 Unit Unit Unit () ()
      (fun _ => Except.error ()) emptyCompAnalyzer rfl⟩

/-- C8: the audience resolver is a total function with exactly three cases:
the fixed descriptor for "project_management", the fixed IT
Professionals/Operations Managers descriptor for "workflow Automation"
(exact string match), and the all-empty descriptor for every other niche
string. -/
theorem determine_target_audience_total_three_cases :
    determine_target_audience "project_management"
        = { role := ["Project Managers", "Developers"]
            industry := ["Tech", "Consulting", "Construction"]
            company_size := ["Small", "Medium"] } ∧
    determine_target_audience "workflow Automation"
        = { role := ["IT Professionals", "Operations Managers"]
            industry := ["Tech", "Manufacturing", "Finance"]
            company_size := ["Medium", "Large"] } ∧
    (∀ niche : String, niche ≠ "project_management" → niche ≠ "workflow Automation" →
      determine_target_audience niche
        = { role := [], industry := [], company_size := [] }) := by
  refine ⟨by simp [determine_target_audience], by simp [determine_target_audience], ?_⟩
  intro niche h1 h2
  unfold determine_target_audience
  rw [if_neg h1, if_neg h2]

/-- Witness for C8: the default case at the niche string "anything_else". -/
theorem determine_target_audience_default_witness :
    determine_target_audience "anything_else"
      = { role := [], industry := [], company_size := [] } :=
  determine_target_audience_total_three_cases.2.2 "anything_else"
    (by decide) (by decide)

/-- C9: the scorer depends only on the number of competitor records, not on
their contents or even their type: any two competitor lists of equal length
yield the same score for every niche. -/
theorem calculate_potential_count_only :
    ∀ (α β : Type) (niche : String) (l1 : List α) (l2 : List β),
      l1.length = l2.length →
      calculate_potential niche l1 = calculate_potential niche l2 := by
  intro α β niche l1 l2 h
  rcases l1 with _ | ⟨a, as⟩ <;> rcases l2 with _ | ⟨b, bs⟩
  · rfl
  · simp at h
  · simp at h
  · simp only [calculate_potential, List.isEmpty_cons, Bool.false_eq_true, if_false,
      List.length_cons]
    have hlen : as.length = bs.length := by simpa using h
    rw [hlen]

/-- Witness for C9: a one-element list of booleans and a one-element list of
units give the same score. -/
theorem calculate_potential_count_only_witness :
    calculate_potential "some_niche" [true] = calculate_potential "some_niche" [()] :=
  calculate_potential_count_only Bool Unit "some_niche" [true] [()] rfl

/-- C10: the error handling of the candidate loop covers the whole candidate
step: if the competitor analysis, the potential-score computation or the
target-audience determination fails for a candidate, no report for it is
appended — the accumulated `results` are passed through unchanged — and the
loop continues with the remaining candidates. -/
theorem candidate_failure_skips_candidate :
    ∀ (ε α : Type) (competitor_analyzer : String → Except ε (List α))
      (calcP : String → List α → Except ε ℚ) (audienceOf : String → Except ε Audience)
      (niche : String) (rest : List String) (results : List (Report α)),
      ((∃ e, competitor_analyzer niche = Except.error e) ∨
       (∃ cs e, competitor_analyzer niche = Except.ok cs ∧
          calcP niche cs = Except.error e) ∨
       (∃ cs s e, competitor_analyzer niche = Except.ok cs ∧ calcP niche cs = Except.ok s ∧
          audienceOf niche = Except.error e)) →
      processCandidates competitor_analyzer calcP audienceOf (niche :: rest) results
        = processCandidates competitor_analyzer calcP audienceOf rest results := by
  intro ε α ca calcP audienceOf niche rest results h
  have hstep : ∃ e, candidateStep ca calcP audienceOf niche = Except.error e := by
    rcases h with ⟨e, he⟩ | ⟨cs, e, hcs, he⟩ | ⟨cs, s, e, hcs, hs, he⟩
    · exact ⟨e, by simp [candidateStep, he]⟩
    · exact ⟨e, by simp [candidateStep, hcs, he]⟩
    · exact ⟨e, by simp [candidateStep, hcs, hs, he]⟩
  rcases hstep with ⟨e, he⟩
  simp [processCandidates, he]

/-- Witness for C10: with the analyzer that fails on "n1", processing
["n1", "n4"] yields the same accumulated results as processing ["n4"]. -/
theorem candidate_failure_skips_candidate_witness :
    processCandidates failTop3Analyzer
        (fun n cs => Except.ok (calculate_potential n cs))
        (fun n => Except.ok (determine_target_audience n)) ["n1", "n4"] []
      = processCandidates failTop3Analyzer
          (fun n cs => Except.ok (calculate_potential n cs))
          (fun n => Except.ok (determine_target_audience n)) ["n4"] [] :=
  candidate_failure_skips_candidate Unit Unit failTop3Analyzer
    (fun n cs => Except.ok (calculate_potential n cs))
    (fun n => Except.ok (determine_target_audience n)) "n1" ["n4"] []
    (Or.inl ⟨(), by simp [failTop3Analyzer]⟩)
